import Mathlib

/-!
Verification development for the subtitle scraping pipeline
(src/index.js, src/unnamed/part_000, src/unnamed/part_001).

The three JavaScript files are near-duplicate variants of one script:
* src/index.js         : per-listing CSV schema, MAX_MOVIES = 10
* src/unnamed/part_000 : per-chunk CSV schema (102-char chunking), MAX_MOVIES = 2
* src/unnamed/part_001 : per-listing schema without any try/catch, MAX_MOVIES = 1

Text is modelled as List Char; the effectful orchestration is modelled as
pure functions over the per-listing outcomes delivered by the environment
(the website and the browser session), with JavaScript exceptions modelled
by an explicit error type.
-/

set_option maxRecDepth 10000

/-- The JavaScript runtime faults the scripts can raise.  A thrown value
propagates until a try/catch (or to the top of the run, crashing it). -/
inductive JsError where
  | typeError (msg : String)
  | navError (msg : String)
  | zipError (msg : String)
deriving DecidableEq

deriving instance DecidableEq for Except

/-! ## Text normalization and chunking (src/unnamed/part_000 lines 280-294)

The chunked variant computes
  downloadData.replace(/[\n\r]+/g, " ")
              .replace(/\d+\s\d+:\d+:\d+,\d+\s-->\s\d+:\d+:\d+,\d+\s|\s?<i>|<\/i>\s?/g, "")
              .match(/.{1,102}/g)
and maps each chunk to a record with the chunk trimmed and part = index+1.
index.js (lines 276-280) applies the same two .replace calls without the
chunking. -/

/-- Line terminators replaced by the first regex, [\n\r]. -/
def isNl (c : Char) : Bool := c == '\n' || c == '\r'

/-- The ECMAScript LineTerminator set, which the regex atom . cannot
match: LF, CR and the Unicode line/paragraph separators U+2028/U+2029.
Note the first .replace collapses only \n and \r, so U+2028/U+2029 can
survive normalization and reach the chunking step. -/
def isJsLineTerm (c : Char) : Bool :=
  c == '\n' || c == '\r' || c == '\u2028' || c == '\u2029'

/-- The JavaScript \s character class (also the set trimmed by
String.prototype.trim): ASCII whitespace, NBSP and the Unicode space
separators. -/
def isJsWs (c : Char) : Bool :=
  c == ' ' || c == '\t' || c == '\n' || c == '\x0b' || c == '\x0c' || c == '\r' ||
  c == '\xa0' || c == '\u1680' || ('\u2000' <= c && c <= '\u200a') ||
  c == '\u2028' || c == '\u2029' || c == '\u202f' || c == '\u205f' ||
  c == '\u3000' || c == '\ufeff'

/-- .replace(/[\n\r]+/g, " "): every maximal run of newline/carriage-return
characters becomes a single space. -/
def collapseNl : List Char → List Char
  | [] => []
  | [c] => if isNl c then [' '] else [c]
  | c :: d :: rest =>
    if isNl c then
      if isNl d then collapseNl (d :: rest)
      else ' ' :: collapseNl (d :: rest)
    else c :: collapseNl (d :: rest)

/-- Match a literal character sequence, returning the rest of the input. -/
def parseLit : List Char → List Char → Option (List Char)
  | [], l => some l
  | p :: ps, c :: cs => if c == p then parseLit ps cs else none
  | _ :: _, [] => none

/-- Match a single \s character. -/
def parseWs1 : List Char → Option (List Char)
  | c :: cs => if isJsWs c then some cs else none
  | [] => none

/-- Match \d+ (one or more ASCII digits, greedy; no backtracking is needed
because every following regex element is disjoint from \d). -/
def parseDigits1 : List Char → Option (List Char)
  | c :: cs => if c.isDigit then some (cs.dropWhile Char.isDigit) else none
  | [] => none

/-- Match one timecode \d+:\d+:\d+,\d+ of the timestamp alternative. -/
def parseTimecode (l : List Char) : Option (List Char) :=
  (parseDigits1 l).bind fun l1 =>
  (parseLit [':'] l1).bind fun l2 =>
  (parseDigits1 l2).bind fun l3 =>
  (parseLit [':'] l3).bind fun l4 =>
  (parseDigits1 l4).bind fun l5 =>
  (parseLit [','] l5).bind fun l6 =>
  parseDigits1 l6

/-- First alternative of the second regex:
\d+\s\d+:\d+:\d+,\d+\s-->\s\d+:\d+:\d+,\d+\s (cue number, the two
timecodes around the arrow, each boundary a single \s character). -/
def tryTimestamp (l : List Char) : Option (List Char) :=
  (parseDigits1 l).bind fun l1 =>
  (parseWs1 l1).bind fun l2 =>
  (parseTimecode l2).bind fun l3 =>
  (parseWs1 l3).bind fun l4 =>
  (parseLit ['-', '-', '>'] l4).bind fun l5 =>
  (parseWs1 l5).bind fun l6 =>
  (parseTimecode l6).bind fun l7 =>
  parseWs1 l7

/-- Second alternative \s?<i>.  The ? is greedy: with a leading whitespace
the engine first tries to consume it and match <i> after it; retrying
without the whitespace then starts at the whitespace character itself,
which cannot begin <i>, so the branch below is exhaustive. -/
def tryOpenItalic (l : List Char) : Option (List Char) :=
  match l with
  | c :: cs =>
    if isJsWs c then parseLit ['<', 'i', '>'] cs
    else parseLit ['<', 'i', '>'] (c :: cs)
  | [] => none

/-- Third alternative <\/i>\s? (closing tag plus an optional following
whitespace, consumed greedily). -/
def tryCloseItalic (l : List Char) : Option (List Char) :=
  (parseLit ['<', '/', 'i', '>'] l).map fun r =>
    match r with
    | c :: cs => if isJsWs c then cs else c :: cs
    | [] => []

/-- One global-regex pass of
.replace(/\d+\s\d+:\d+:\d+,\d+\s-->\s\d+:\d+:\d+,\d+\s|\s?<i>|<\/i>\s?/g, ""):
at each position the engine tries the three alternatives in order; on a
match it drops the matched characters and resumes after them, otherwise it
keeps the character and advances by one.  Every match consumes at least one
character, so fuel equal to the input length never runs out before the
input does. -/
def stripMarkupF : Nat → List Char → List Char
  | 0, _ => []
  | _, [] => []
  | f + 1, c :: cs =>
    match tryTimestamp (c :: cs) with
    | some r => stripMarkupF f r
    | none =>
      match tryOpenItalic (c :: cs) with
      | some r => stripMarkupF f r
      | none =>
        match tryCloseItalic (c :: cs) with
        | some r => stripMarkupF f r
        | none => c :: stripMarkupF f cs

/-- The two .replace calls shared by part_000 (lines 281-285) and index.js
(lines 276-280). -/
def normalizeSubtitle (l : List Char) : List Char :=
  let collapsed := collapseNl l
  stripMarkupF collapsed.length collapsed

/-- Take up to n characters matched by the regex atom . (any character
except an ECMAScript LineTerminator); stops early at a line
terminator. -/
def dotTake : Nat → List Char → List Char × List Char
  | 0, l => ([], l)
  | _, [] => ([], [])
  | n + 1, c :: cs =>
    if isJsLineTerm c then ([], c :: cs)
    else
      let p := dotTake n cs
      (c :: p.1, p.2)

/-- Global scan of .{1,102}: at each position, if the character is an
ECMAScript LineTerminator no match starts there and the engine advances,
otherwise the match greedily takes up to 102 characters.  Each step
consumes at least one character, so fuel equal to the input length
suffices. -/
def jsDotScanF : Nat → List Char → List (List Char)
  | 0, _ => []
  | _, [] => []
  | f + 1, c :: cs =>
    if isJsLineTerm c then jsDotScanF f cs
    else
      let p := dotTake 102 (c :: cs)
      p.1 :: jsDotScanF f p.2

/-- .match(/.{1,102}/g): null when there is no match at all, otherwise the
list of matches. -/
def jsMatch102 (l : List Char) : Option (List (List Char)) :=
  let ms := jsDotScanF l.length l
  if ms = [] then none else some ms

/-- String.prototype.trim: drop \s characters from both ends. -/
def jsTrimChars (l : List Char) : List Char :=
  ((l.dropWhile isJsWs).reverse.dropWhile isJsWs).reverse

/-- The chunk array of part_000 line 280-286 (null when the normalized
text is empty). -/
def subtitleChunks (data : List Char) : Option (List (List Char)) :=
  jsMatch102 (normalizeSubtitle data)

/-- One CSV row of the chunked variant: the object
pushed at part_000 lines 290-294 ({name, subtitle: chunk.trim(),
part: index+1}; the part field is rendered as the string "part N", modelled
here by the number N itself). -/
structure SubtitleRecord where
  name : String
  subtitle : List Char
  part : Nat
deriving DecidableEq

/-- subtitleChunks.map((chunk, index) => ...) of part_000 lines 290-294,
with the running index made explicit. -/
def chunkRecsFrom (nm : String) : Nat → List (List Char) → List SubtitleRecord
  | _, [] => []
  | i, c :: cs =>
    { name := nm, subtitle := jsTrimChars c, part := i + 1 } :: chunkRecsFrom nm (i + 1) cs

/-- The whole chunking step of part_000 lines 280-294: build the chunk
array and map it to records.  When .match returned null, the .map call on
it raises a TypeError. -/
def chunkRecords (nm : String) (data : List Char) : Except JsError (List SubtitleRecord) :=
  match subtitleChunks data with
  | none => Except.error (JsError.typeError "Cannot read properties of null (reading map)")
  | some cs => Except.ok (chunkRecsFrom nm 0 cs)

/-! ## Subtitle link resolver (index.js lines 38-60, part_000 lines 36-58,
part_001 lines 36-51; all three bodies are identical)

The resolver queries the detail page for ".table.other-subs tbody".  When
the table handle is null (table absent), calling .$$ on it throws a
TypeError; otherwise the rows are walked in document order and the first
row whose trimmed ".sub-lang" text equals "English" yields its
".subtitle-download" href; with no match the function returns null. -/

/-- One row of the subtitle-options table: the raw text content of its
language cell and the href of its download link. -/
structure SubRow where
  lang : String
  href : String
deriving DecidableEq

/-- el.textContent.trim() / String.prototype.trim on a string. -/
def jsTrimStr (s : String) : String := String.mk (jsTrimChars s.data)

/-- The for-of loop over the table rows (first match wins). -/
def findEnglishRow : List SubRow → Option String
  | [] => none
  | r :: rs => if jsTrimStr r.lang = "English" then some r.href else findEnglishRow rs

/-- getEnglishSubtitleLink, given the queried table (none when the page has
no ".table.other-subs tbody" element). -/
def getEnglishSubtitleLink (table : Option (List SubRow)) : Except JsError (Option String) :=
  match table with
  | none => Except.error (JsError.typeError "Cannot read properties of null (reading the tr query)")
  | some rows => Except.ok (findEnglishRow rows)

/-! ## Archive extraction (index.js lines 166-203, part_000 lines 164-201,
part_001 lines 131-156) -/

/-- One entry of the downloaded zip archive, in the archive internal
entry order, with its decoded UTF-8 text. -/
structure ZipEntry where
  entryName : String
  data : List Char
deriving DecidableEq

/-- entry.entryName.endsWith(".srt"). -/
def hasSrtSuffix (name : String) : Bool := List.isSuffixOf ".srt".data name.data

/-- The entry-scanning loop shared by all three variants: walk the entries
in order and stop at the first whose name ends with ".srt". -/
def findSrtEntry : List ZipEntry → Option ZipEntry
  | [] => none
  | e :: es => if hasSrtSuffix e.entryName then some e else findSrtEntry es

/-- extractSubtitles of index.js / part_000: resolve with the first .srt
entry data decoded as UTF-8, or reject with the no-subtitle error (the
surrounding decompression to disk has no bearing on the returned value). -/
def extractSubtitles (entries : List ZipEntry) : Except JsError (List Char) :=
  match findSrtEntry entries with
  | some e => Except.ok e.data
  | none => Except.error (JsError.zipError "No subtitle file found in zip")

/-- String.prototype.split with a one-character separator (used via
url.split("/")): consecutive separators produce empty segments, an empty
input produces one empty segment, and a trailing separator produces a
final empty segment. -/
def splitOnChar (sep : Char) : List Char → List (List Char)
  | [] => [[]]
  | c :: cs =>
    let r := splitOnChar sep cs
    if c == sep then [] :: r
    else
      match r with
      | [] => [[c]]
      | seg :: rest => (c :: seg) :: rest

/-- path.basename: the last path component (trailing separators
ignored). -/
def basenameOf (nm : String) : String :=
  let trimmed := (nm.data.reverse.dropWhile (fun c => c == '/')).reverse
  String.mk (((splitOnChar '/' trimmed).getLast?).getD [])

/-- part_001 lines 136-146: the same first-.srt scan, but when no entry
matches, subtitleEntry stays null and path.basename(null) throws a
TypeError instead of producing the no-subtitle error (and part_001 has no
try/catch anywhere, so the TypeError crashes the run). -/
def srtEntryBasenameV1 (entries : List ZipEntry) : Except JsError String :=
  match findSrtEntry entries with
  | some e => Except.ok (basenameOf e.entryName)
  | none => Except.error (JsError.typeError "The path argument must be of type string, received null")

/-! ## Download cache (index.js lines 70-156, part_000 lines 68-154;
identical code)

startDownload derives fileName = url.split("/").pop(), creates
subtitles/<fileName>/ idempotently, sets
filePath = subtitles/<fileName>/<fileName>.zip, and downloads only when no
file exists at filePath; either way it then extracts.  Any error in the
body is caught and turned into null.  The filesystem is modelled as a map
from paths to the stored archive contents; a transfer stores the remote
archive at the expected path (the completion of that transfer is the
subject of C9 below; here it is modelled by its effect). -/

/-- url.split("/").pop(). -/
def fileNameOf (url : String) : String :=
  String.mk (((splitOnChar '/' url.data).getLast?).getD [])

/-- path.join(subtitlesDir, fileName) with subtitlesDir = "subtitles". -/
def movieFolderOf (url : String) : String := "subtitles/" ++ fileNameOf url

/-- path.join(createMovieFolderName, fileName + ".zip"). -/
def filePathOf (url : String) : String := movieFolderOf url ++ "/" ++ fileNameOf url ++ ".zip"

/-- The staging directory contents: zip files present on disk, keyed by
path. -/
structure DlState where
  files : List (String × List ZipEntry)
deriving DecidableEq

/-- What one startDownload call produced: its return value (null on any
caught error), the filesystem afterwards, and how many network transfers
it performed. -/
structure DlOut where
  result : Option (List Char)
  st : DlState
  transfers : Nat
deriving DecidableEq

/-- The try/catch of startDownload: a thrown error is logged and null is
returned. -/
def exceptToNull : Except JsError (List Char) → Option (List Char)
  | Except.ok d => some d
  | Except.error _ => none

/-- startDownload url on the given filesystem.  The netOk flag is the
environment: whether the browser download inside downloadSubtitles
succeeds (a failure there is caught by downloadSubtitles, which returns
null; startDownload then extracts the still-missing file, AdmZip throws
and the outer catch yields null).  On a cache hit the stored archive is
extracted directly with no transfer.  On a successful miss the remote
archive is written to filePath and extracted (downloadSubtitles extracts
once and startDownload extracts the same file again; the value is the
same). -/
def startDownload (netOk : Bool) (url : String) (remoteZip : List ZipEntry) (st : DlState) : DlOut :=
  let fp := filePathOf url
  match List.lookup fp st.files with
  | some storedZip => { result := exceptToNull (extractSubtitles storedZip), st := st, transfers := 0 }
  | none =>
    if netOk then
      let st2 : DlState := { files := (fp, remoteZip) :: st.files }
      { result := exceptToNull (extractSubtitles remoteZip), st := st2, transfers := 1 }
    else
      { result := none, st := st, transfers := 1 }

/-! ## Download synchronization (index.js lines 124-156, part_000 lines
122-154): the observable browser-automation steps of downloadSubtitles, in
program order.  The observeFile action is the filesystem polling step a
completion check would need; it is part of the action vocabulary precisely
so that its absence from the trace is expressible. -/

/-- One browser-automation or filesystem step of downloadSubtitles. -/
inductive DlAction where
  | newPage
  | setDownloadBehavior (dir : String)
  | goto (url : String)
  | click (selector : String)
  | waitFixedMs (ms : Nat)
  | closePage
  | observeFile (p : String)
deriving DecidableEq

/-- The step sequence of downloadSubtitles before extraction: open a page,
allow downloads into the target directory, navigate, click the download
button, wait a fixed 10000 ms (newPage.waitForTimeout(10000)), close the
page.  No step observes the filesystem. -/
def downloadSubtitlesTrace (url dir : String) : List DlAction :=
  [DlAction.newPage, DlAction.setDownloadBehavior dir, DlAction.goto url,
   DlAction.click ".download-subtitle", DlAction.waitFixedMs 10000, DlAction.closePage]

/-- Does a step observe the filesystem for an artifact? -/
def isFsObservation : DlAction → Bool
  | DlAction.observeFile _ => true
  | _ => false

/-! ## Listing iteration

One listing element, together with the environment outcomes its
processing will see: the display name and detail link extracted from it,
the outcome of getEnglishSubtitleLink on its detail page (an uncaught
exception, null, or an archive URL), and the value startDownload returns
for it (null when a download/extraction failure was caught). -/

structure Listing where
  name : String
  link : String
  resolver : Except JsError (Option String)
  download : Option (List Char)
deriving DecidableEq

namespace Chunked

/-! Model of part_000: getMoviesList (lines 212-302) and scrapeMovies
(lines 307-353). -/

/-- MAX_MOVIES of part_000 (line 7). -/
def MAX_MOVIES : Nat := 2

/-- What one page-processing loop produced: the records pushed, the ghost
list of movieIndex values assigned to successful listings (in order), the
ghost list of positions i at which movieList[i] was dereferenced, and the
exception that aborted the loop, if any.  When err is some, the recs and
idxs fields are bookkeeping for the prefix processed before the throw; the
JavaScript caller never sees them (the local movies array is discarded by
the throw). -/
structure PageOut where
  recs : List SubtitleRecord
  idxs : List Nat
  derefs : List Nat
  err : Option JsError
deriving DecidableEq

/-- The listing loop of part_000 lines 225-299:
for (let i = 0; i < movieList.length && movieIndex <= MAX_MOVIES; i++).
The element is dereferenced (always defined, since i < length, so the
!movie guard never fires); empty name, empty link, null subtitle link and
null download data each skip to the next listing without advancing
movieIndex; a resolver exception propagates; otherwise the chunk records
are pushed and movieIndex advances by one.  A null chunk array makes the
.map call throw (see chunkRecords). -/
def go (maxM : Nat) : List Listing → Nat → Nat → PageOut
  | [], _, _ => { recs := [], idxs := [], derefs := [], err := none }
  | m :: rest, i, idx =>
    if maxM < idx then { recs := [], idxs := [], derefs := [], err := none }
    else
      let p :=
        if m.name = "" then go maxM rest (i + 1) idx
        else if m.link = "" then go maxM rest (i + 1) idx
        else
          match m.resolver with
          | Except.error e => { recs := [], idxs := [], derefs := [], err := some e }
          | Except.ok none => go maxM rest (i + 1) idx
          | Except.ok (some _) =>
            match m.download with
            | none => go maxM rest (i + 1) idx
            | some data =>
              if data = [] then go maxM rest (i + 1) idx
              else
                match chunkRecords m.name data with
                | Except.error e => { recs := [], idxs := [], derefs := [], err := some e }
                | Except.ok rs =>
                  let q := go maxM rest (i + 1) (idx + 1)
                  { recs := rs ++ q.recs, idxs := idx :: q.idxs,
                    derefs := q.derefs, err := q.err }
      { p with derefs := i :: p.derefs }

/-- getMoviesList: return null when the page has no listing elements
(lines 220-223, checked before the loop), otherwise run the loop; a loop
exception propagates, else the movies array is returned (paired with the
ghost index list). -/
def getMoviesList (maxM : Nat) (ms : List Listing) (startIndex : Nat) :
    Except JsError (Option (List SubtitleRecord × List Nat)) :=
  if ms.length = 0 then Except.ok none
  else
    let p := go maxM ms 0 startIndex
    match p.err with
    | some e => Except.error e
    | none => Except.ok (some (p.recs, p.idxs))

/-- The page loop of scrapeMovies lines 323-341:
for (let i = 1; movieCount <= MAX_MOVIES; i++), with
startIndex += moviesList.length and movieCount += moviesList.length after
each page.  A null moviesList makes moviesList.length throw a TypeError
(line 333); a page whose array is empty breaks the loop.  The input list
holds the successive page snapshots the site serves; the model stops when
they are exhausted. -/
def scrapeGo (maxM : Nat) :
    List (List Listing) → Nat → Nat → Except JsError (List SubtitleRecord × List Nat)
  | [], _, _ => Except.ok ([], [])
  | pg :: rest, s, c =>
    if maxM < c then Except.ok ([], [])
    else
      match getMoviesList maxM pg s with
      | Except.error e => Except.error e
      | Except.ok none =>
        Except.error (JsError.typeError "Cannot read properties of null (reading length)")
      | Except.ok (some (recs, idxs)) =>
        if recs.length = 0 then Except.ok ([], [])
        else
          match scrapeGo maxM rest (s + recs.length) (c + recs.length) with
          | Except.error e => Except.error e
          | Except.ok (r, ids) => Except.ok (recs ++ r, idxs ++ ids)

/-- scrapeMovies: the whole run over the served pages, startIndex = 1,
movieCount = 0.  On success the final record list is written to the CSV
file; an uncaught exception aborts the run before the write. -/
def scrapeMovies (pages : List (List Listing)) :
    Except JsError (List SubtitleRecord × List Nat) :=
  scrapeGo MAX_MOVIES pages 1 0

end Chunked

namespace PerListing

/-! Model of index.js: getMoviesList (lines 213-288) and scrapeMovies
(lines 293-337). -/

/-- MAX_MOVIES of index.js (line 7). -/
def MAX_MOVIES : Nat := 10

/-- One CSV row of index.js (lines 271-281): the id is the global
movieIndex; the subtitle is the download data after the two .replace
calls (no chunking and no trim). -/
structure MovieRecord where
  id : Nat
  name : String
  link : String
  subtitleLink : String
  subtitle : List Char
deriving DecidableEq

/-- Loop outcome of one index.js page, with the same ghost fields as the
chunked variant. -/
structure PageOut where
  recs : List MovieRecord
  derefs : List Nat
  err : Option JsError
deriving DecidableEq

/-- The listing loop of index.js lines 235-285:
for (let i = 0; i <= movieList.length && movieIndex <= MAX_MOVIES; i++).
The loop condition uses i <= length, so the iteration i = length
dereferences movieList[length], which is undefined; the !movie guard then
skips it.  The input is therefore walked as the element list followed by
one undefined slot.  An empty link skips; a resolver exception propagates;
subtitleLink === null skips; otherwise startDownload runs and its result
is used directly: a null download result makes downloadData.replace throw
a TypeError, and any other result (the empty string included) is pushed as
a record with the current movieIndex, which then advances. -/
def goSlots (maxM : Nat) : List (Option Listing) → Nat → Nat → PageOut
  | [], _, _ => { recs := [], derefs := [], err := none }
  | slot :: rest, i, idx =>
    if maxM < idx then { recs := [], derefs := [], err := none }
    else
      let p :=
        match slot with
        | none => goSlots maxM rest (i + 1) idx
        | some m =>
          if m.link = "" then goSlots maxM rest (i + 1) idx
          else
            match m.resolver with
            | Except.error e => { recs := [], derefs := [], err := some e }
            | Except.ok none => goSlots maxM rest (i + 1) idx
            | Except.ok (some url) =>
              match m.download with
              | none =>
                { recs := [], derefs := [],
                  err := some (JsError.typeError "Cannot read properties of null (reading replace)") }
              | some data =>
                let q := goSlots maxM rest (i + 1) (idx + 1)
                { recs := { id := idx, name := m.name, link := m.link,
                            subtitleLink := url,
                            subtitle := normalizeSubtitle data } :: q.recs,
                  derefs := q.derefs, err := q.err }
      { p with derefs := i :: p.derefs }

/-- The loop entered at i = 0 over the discovered elements plus the
one-past-the-end undefined slot. -/
def go (maxM : Nat) (ms : List Listing) (startIndex : Nat) : PageOut :=
  goSlots maxM (ms.map some ++ [none]) 0 startIndex

/-- getMoviesList of index.js: null on a page with no listing elements
(lines 229-232), else the loop result. -/
def getMoviesList (maxM : Nat) (ms : List Listing) (startIndex : Nat) :
    Except JsError (Option (List MovieRecord)) :=
  if ms.length = 0 then Except.ok none
  else
    let p := go maxM ms startIndex
    match p.err with
    | some e => Except.error e
    | none => Except.ok (some p.recs)

/-- The page loop of index.js scrapeMovies lines 309-325 (same shape as
the chunked variant). -/
def scrapeGo (maxM : Nat) :
    List (List Listing) → Nat → Nat → Except JsError (List MovieRecord)
  | [], _, _ => Except.ok []
  | pg :: rest, s, c =>
    if maxM < c then Except.ok []
    else
      match getMoviesList maxM pg s with
      | Except.error e => Except.error e
      | Except.ok none =>
        Except.error (JsError.typeError "Cannot read properties of null (reading length)")
      | Except.ok (some recs) =>
        if recs.length = 0 then Except.ok []
        else
          match scrapeGo maxM rest (s + recs.length) (c + recs.length) with
          | Except.error e => Except.error e
          | Except.ok r => Except.ok (recs ++ r)

/-- scrapeMovies of index.js. -/
def scrapeMovies (pages : List (List Listing)) : Except JsError (List MovieRecord) :=
  scrapeGo MAX_MOVIES pages 1 0

end PerListing

/-! ## Concrete fixtures used by the witnesses and counterexamples below -/

/-- A listing whose resolution, download and extraction all succeed. -/
def demoListingOk : Listing :=
  { name := "Movie A", link := "https://yts-subs.com/movies/a",
    resolver := Except.ok (some "https://yts-subs.com/subtitle/a-yify-1"),
    download := some "hi".data }

/-- A listing whose detail-page navigation throws inside
getEnglishSubtitleLink. -/
def demoListingNav : Listing :=
  { name := "Movie B", link := "https://yts-subs.com/movies/b",
    resolver := Except.error (JsError.navError "net::ERR_CONNECTION_RESET"),
    download := none }

/-- A listing with no English subtitle row (resolver returns null). -/
def demoListingMiss : Listing :=
  { name := "Movie C", link := "https://yts-subs.com/movies/c",
    resolver := Except.ok none, download := none }

/-- A listing whose download stage failed; the startDownload catch turned
the failure into null. -/
def demoListingDlFail : Listing :=
  { name := "Movie D", link := "https://yts-subs.com/movies/d",
    resolver := Except.ok (some "https://yts-subs.com/subtitle/d-yify-2"),
    download := none }

/-- A listing whose downloaded text is nonempty but normalizes to the
empty string (a lone italic tag). -/
def demoListingEmptyNorm : Listing :=
  { name := "Movie E", link := "https://yts-subs.com/movies/e",
    resolver := Except.ok (some "https://yts-subs.com/subtitle/e-yify-3"),
    download := some "<i>".data }

/-- The 205-character text of the spec example (205 letters A). -/
def dataA : List Char := List.replicate 205 'A'

/-- Its expected chunking: windows of lengths 102, 102 and 1. -/
def chunksA : List (List Char) :=
  [List.replicate 102 'A', List.replicate 102 'A', ['A']]

/-- An archive holding a subtitle document between two other entries
(the spec example). -/
def demoEntries : List ZipEntry :=
  [{ entryName := "info.nfo", data := "n".data },
   { entryName := "movie.srt", data := "subtitle text".data },
   { entryName := "readme.txt", data := "r".data }]

/-- An archive with no .srt entry. -/
def demoEntriesNoSrt : List ZipEntry :=
  [{ entryName := "info.nfo", data := "n".data },
   { entryName := "readme.txt", data := "r".data }]

/-- A concrete archive URL. -/
def demoUrl : String := "https://yts-subs.com/subtitle/demo-yify-7"

/-- A changed remote archive served for the same URL on the second run. -/
def demoEntries2 : List ZipEntry :=
  [{ entryName := "other.srt", data := "changed".data }]

/-- Two served pages: a success and a resolution miss, then another
success. -/
def demoPages : List (List Listing) := [[demoListingOk, demoListingMiss], [demoListingOk]]

/-- The records the index.js run produces on demoPages. -/
def demoRecsIdx : List PerListing.MovieRecord :=
  [{ id := 1, name := "Movie A", link := "https://yts-subs.com/movies/a",
     subtitleLink := "https://yts-subs.com/subtitle/a-yify-1", subtitle := "hi".data },
   { id := 2, name := "Movie A", link := "https://yts-subs.com/movies/a",
     subtitleLink := "https://yts-subs.com/subtitle/a-yify-1", subtitle := "hi".data }]

/-- The records the chunked run produces on demoPages. -/
def demoRecsChunked : List SubtitleRecord :=
  [{ name := "Movie A", subtitle := "hi".data, part := 1 },
   { name := "Movie A", subtitle := "hi".data, part := 1 }]

/-! ## Helper lemmas about the normalization and chunking pipeline -/

theorem collapseNl_not_nl : ∀ l, ∀ c ∈ collapseNl l, isNl c = false := by
  intro l
  induction l with
  | nil => intro c h; simp [collapseNl] at h
  | cons a t ih =>
    intro c h
    cases t with
    | nil =>
      simp only [collapseNl] at h
      split at h
      · simp only [List.mem_singleton] at h
        subst h; decide
      · next ha =>
        simp only [List.mem_singleton] at h
        subst h; simpa using ha
    | cons b t2 =>
      simp only [collapseNl] at h
      split at h
      · split at h
        · exact ih c h
        · simp only [List.mem_cons] at h
          rcases h with h | h
          · subst h; decide
          · exact ih c h
      · next ha =>
        simp only [List.mem_cons] at h
        rcases h with h | h
        · subst h; simpa using ha
        · exact ih c h

theorem parseLit_subset : ∀ p l r, parseLit p l = some r → ∀ c ∈ r, c ∈ l := by
  intro p
  induction p with
  | nil =>
    intro l r h c hc
    simp only [parseLit, Option.some.injEq] at h
    subst h; exact hc
  | cons x xs ih =>
    intro l r h c hc
    cases l with
    | nil => simp [parseLit] at h
    | cons y ys =>
      simp only [parseLit] at h
      split at h
      · exact List.mem_cons_of_mem _ (ih ys r h c hc)
      · exact absurd h (by simp)

theorem parseWs1_subset : ∀ l r, parseWs1 l = some r → ∀ c ∈ r, c ∈ l := by
  intro l r h c hc
  cases l with
  | nil => simp [parseWs1] at h
  | cons y ys =>
    simp only [parseWs1] at h
    split at h
    · simp only [Option.some.injEq] at h
      subst h; exact List.mem_cons_of_mem _ hc
    · exact absurd h (by simp)

theorem parseDigits1_subset : ∀ l r, parseDigits1 l = some r → ∀ c ∈ r, c ∈ l := by
  intro l r h c hc
  cases l with
  | nil => simp [parseDigits1] at h
  | cons y ys =>
    simp only [parseDigits1] at h
    split at h
    · simp only [Option.some.injEq] at h
      subst h
      exact List.mem_cons_of_mem _ ((List.dropWhile_sublist _).subset hc)
    · exact absurd h (by simp)

theorem parseTimecode_subset : ∀ l r, parseTimecode l = some r → ∀ c ∈ r, c ∈ l := by
  intro l r h c hc
  simp only [parseTimecode, Option.bind_eq_some] at h
  obtain ⟨l1, h1, l2, h2, l3, h3, l4, h4, l5, h5, l6, h6, h7⟩ := h
  exact parseDigits1_subset _ _ h1 c
    (parseLit_subset _ _ _ h2 c
      (parseDigits1_subset _ _ h3 c
        (parseLit_subset _ _ _ h4 c
          (parseDigits1_subset _ _ h5 c
            (parseLit_subset _ _ _ h6 c
              (parseDigits1_subset _ _ h7 c hc))))))

theorem tryTimestamp_subset : ∀ l r, tryTimestamp l = some r → ∀ c ∈ r, c ∈ l := by
  intro l r h c hc
  simp only [tryTimestamp, Option.bind_eq_some] at h
  obtain ⟨l1, h1, l2, h2, l3, h3, l4, h4, l5, h5, l6, h6, l7, h7, h8⟩ := h
  exact parseDigits1_subset _ _ h1 c
    (parseWs1_subset _ _ h2 c
      (parseTimecode_subset _ _ h3 c
        (parseWs1_subset _ _ h4 c
          (parseLit_subset _ _ _ h5 c
            (parseWs1_subset _ _ h6 c
              (parseTimecode_subset _ _ h7 c
                (parseWs1_subset _ _ h8 c hc)))))))

theorem tryOpenItalic_subset : ∀ l r, tryOpenItalic l = some r → ∀ c ∈ r, c ∈ l := by
  intro l r h c hc
  cases l with
  | nil => simp [tryOpenItalic] at h
  | cons y ys =>
    simp only [tryOpenItalic] at h
    split at h
    · exact List.mem_cons_of_mem _ (parseLit_subset _ _ _ h c hc)
    · exact parseLit_subset _ _ _ h c hc

theorem tryCloseItalic_subset : ∀ l r, tryCloseItalic l = some r → ∀ c ∈ r, c ∈ l := by
  intro l r h c hc
  simp only [tryCloseItalic, Option.map_eq_some'] at h
  obtain ⟨a, ha, hr⟩ := h
  subst hr
  have hsub := parseLit_subset _ _ _ ha
  cases a with
  | nil => simp at hc
  | cons z zs =>
    by_cases hz : isJsWs z
    · simp only [hz, if_true] at hc
      exact hsub c (List.mem_cons_of_mem _ hc)
    · simp only [hz, if_false] at hc
      exact hsub c hc

set_option maxHeartbeats 2000000 in
theorem stripMarkupF_subset : ∀ f l, ∀ c ∈ stripMarkupF f l, c ∈ l := by
  intro f
  induction f with
  | zero => intro l c h; cases l <;> simp [stripMarkupF] at h
  | succ k ih =>
    intro l c h
    cases l with
    | nil => simp [stripMarkupF] at h
    | cons a cs =>
      rcases h1 : tryTimestamp (a :: cs) with _ | r1
      · rcases h2 : tryOpenItalic (a :: cs) with _ | r2
        · rcases h3 : tryCloseItalic (a :: cs) with _ | r3
          · simp only [stripMarkupF, h1, h2, h3, List.mem_cons] at h
            rcases h with h | h
            · subst h; exact List.mem_cons_self _ _
            · exact List.mem_cons_of_mem _ (ih cs c h)
          · simp only [stripMarkupF, h1, h2, h3] at h
            exact tryCloseItalic_subset _ _ h3 c (ih r3 c h)
        · simp only [stripMarkupF, h1, h2] at h
          exact tryOpenItalic_subset _ _ h2 c (ih r2 c h)
      · simp only [stripMarkupF, h1] at h
        exact tryTimestamp_subset _ _ h1 c (ih r1 c h)

theorem normalizeSubtitle_not_nl : ∀ l, ∀ c ∈ normalizeSubtitle l, isNl c = false := by
  intro l c h
  exact collapseNl_not_nl l c (stripMarkupF_subset _ _ c h)

theorem dotTake_of_no_lineTerm : ∀ n l, (∀ c ∈ l, isJsLineTerm c = false) →
    dotTake n l = (l.take n, l.drop n) := by
  intro n
  induction n with
  | zero => intro l h; simp [dotTake]
  | succ k ih =>
    intro l h
    cases l with
    | nil => simp [dotTake]
    | cons c cs =>
      have hc : isJsLineTerm c = false := h c (List.mem_cons_self _ _)
      have := ih cs (fun x hx => h x (List.mem_cons_of_mem _ hx))
      simp [dotTake, hc, this]

theorem dotTake_fst_length_le : ∀ n l, (dotTake n l).1.length ≤ n := by
  intro n
  induction n with
  | zero => intro l; simp [dotTake]
  | succ k ih =>
    intro l
    cases l with
    | nil => simp [dotTake]
    | cons c cs =>
      by_cases hc : isJsLineTerm c
      · simp [dotTake, hc]
      · simp only [dotTake, hc, if_neg, Bool.false_eq_true, not_false_iff, List.length_cons]
        exact Nat.succ_le_succ (ih cs)

theorem jsDotScanF_join : ∀ f l, l.length ≤ f → (∀ c ∈ l, isJsLineTerm c = false) →
    (jsDotScanF f l).flatten = l := by
  intro f
  induction f with
  | zero =>
    intro l hf _
    have : l = [] := List.length_eq_zero.mp (Nat.le_zero.mp hf)
    subst this
    simp [jsDotScanF]
  | succ k ih =>
    intro l hf h
    cases l with
    | nil => simp [jsDotScanF]
    | cons c cs =>
      have hc : isJsLineTerm c = false := h c (List.mem_cons_self _ _)
      have hdt := dotTake_of_no_lineTerm 102 (c :: cs) h
      have hlen : ((c :: cs).drop 102).length ≤ k := by
        simp only [List.length_drop, List.length_cons] at *
        omega
      have hmem : ∀ x ∈ (c :: cs).drop 102, isJsLineTerm x = false :=
        fun x hx => h x (List.drop_subset _ _ hx)
      simp only [jsDotScanF, hc, Bool.false_eq_true, if_false, hdt, List.flatten_cons]
      rw [ih _ hlen hmem]
      exact List.take_append_drop _ _

theorem jsDotScanF_length : ∀ f l, l.length ≤ f → (∀ c ∈ l, isJsLineTerm c = false) →
    (jsDotScanF f l).length = (l.length + 101) / 102 := by
  intro f
  induction f with
  | zero =>
    intro l hf _
    have : l = [] := List.length_eq_zero.mp (Nat.le_zero.mp hf)
    subst this
    simp [jsDotScanF]
  | succ k ih =>
    intro l hf h
    cases l with
    | nil => simp [jsDotScanF]
    | cons c cs =>
      have hc : isJsLineTerm c = false := h c (List.mem_cons_self _ _)
      have hdt := dotTake_of_no_lineTerm 102 (c :: cs) h
      have hlen : ((c :: cs).drop 102).length ≤ k := by
        simp only [List.length_drop, List.length_cons] at *
        omega
      have hmem : ∀ x ∈ (c :: cs).drop 102, isJsLineTerm x = false :=
        fun x hx => h x (List.drop_subset _ _ hx)
      simp only [jsDotScanF, hc, Bool.false_eq_true, if_false, hdt, List.length_cons]
      rw [ih _ hlen hmem]
      simp only [List.length_drop, List.length_cons]
      omega

theorem jsDotScanF_mem_length_le : ∀ f l c, c ∈ jsDotScanF f l → c.length ≤ 102 := by
  intro f
  induction f with
  | zero => intro l c h; simp [jsDotScanF] at h
  | succ k ih =>
    intro l c h
    cases l with
    | nil => simp [jsDotScanF] at h
    | cons a cs =>
      by_cases ha : isJsLineTerm a
      · simp only [jsDotScanF, ha, if_true] at h
        exact ih _ c h
      · simp only [jsDotScanF, ha, Bool.false_eq_true, if_false, List.mem_cons] at h
        rcases h with h | h
        · subst h; exact dotTake_fst_length_le _ _
        · exact ih _ c h

theorem jsMatch102_eq_some : ∀ l cs, jsMatch102 l = some cs →
    cs = jsDotScanF l.length l ∧ cs ≠ [] := by
  intro l cs h
  simp only [jsMatch102] at h
  split at h
  · exact absurd h (by simp)
  · next hne =>
    simp only [Option.some.injEq] at h
    subst h
    exact ⟨rfl, hne⟩

theorem jsMatch102_isSome_of_ne_nil : ∀ l, l ≠ [] → (∀ c ∈ l, isJsLineTerm c = false) →
    (jsMatch102 l).isSome := by
  intro l hne h
  have hlen : (jsDotScanF l.length l).length = (l.length + 101) / 102 :=
    jsDotScanF_length l.length l (Nat.le_refl _) h
  have hpos : 0 < l.length := List.length_pos.mpr hne
  have hscan : jsDotScanF l.length l ≠ [] := by
    intro hscan
    rw [hscan] at hlen
    simp only [List.length_nil] at hlen
    omega
  simp only [jsMatch102, hscan, if_neg, if_false]
  · rfl

theorem subtitleChunks_eq_some : ∀ data cs, subtitleChunks data = some cs →
    cs = jsDotScanF (normalizeSubtitle data).length (normalizeSubtitle data) ∧ cs ≠ [] :=
  fun _data cs h => jsMatch102_eq_some _ cs h

theorem subtitleChunks_isSome : ∀ data, normalizeSubtitle data ≠ [] →
    (∀ c ∈ normalizeSubtitle data, isJsLineTerm c = false) →
    (subtitleChunks data).isSome :=
  fun _data h hterm => jsMatch102_isSome_of_ne_nil _ h hterm

theorem subtitleChunks_none_of_empty : ∀ data, normalizeSubtitle data = [] →
    subtitleChunks data = none := by
  intro data h
  simp only [subtitleChunks, jsMatch102, h]
  simp [jsDotScanF]

theorem chunkRecsFrom_map_part : ∀ (nm : String) cs i,
    (chunkRecsFrom nm i cs).map SubtitleRecord.part = List.range' (i + 1) cs.length := by
  intro nm cs
  induction cs with
  | nil => intro i; simp [chunkRecsFrom]
  | cons c cs ih =>
    intro i
    simp only [chunkRecsFrom, List.map_cons, List.length_cons, ih (i + 1), List.range'_succ]

theorem chunkRecsFrom_map_subtitle : ∀ (nm : String) cs i,
    (chunkRecsFrom nm i cs).map SubtitleRecord.subtitle = cs.map jsTrimChars := by
  intro nm cs
  induction cs with
  | nil => intro i; simp [chunkRecsFrom]
  | cons c cs ih =>
    intro i
    simp only [chunkRecsFrom, List.map_cons, ih (i + 1)]

theorem chunkRecsFrom_length : ∀ (nm : String) cs i,
    (chunkRecsFrom nm i cs).length = cs.length := by
  intro nm cs
  induction cs with
  | nil => intro i; simp [chunkRecsFrom]
  | cons c cs ih =>
    intro i
    simp only [chunkRecsFrom, List.length_cons, ih (i + 1)]

theorem chunkRecords_ok : ∀ nm data rs, chunkRecords nm data = Except.ok rs →
    ∀ cs, subtitleChunks data = some cs → rs = chunkRecsFrom nm 0 cs := by
  intro nm data rs h cs hcs
  simp only [chunkRecords, hcs] at h
  simpa using h.symm

theorem chunkRecords_ok_ne_nil : ∀ nm data rs, chunkRecords nm data = Except.ok rs →
    rs ≠ [] := by
  intro nm data rs h
  simp only [chunkRecords] at h
  rcases hcs : subtitleChunks data with _ | cs
  · rw [hcs] at h; exact absurd h (by simp)
  · rw [hcs] at h
    simp only [Except.ok.injEq] at h
    subst h
    have hne := (jsMatch102_eq_some _ _ hcs).2
    cases cs with
    | nil => exact absurd rfl hne
    | cons c cs => simp [chunkRecsFrom]

/-! ## Helper lemmas about the listing loops -/

theorem chunkedGo_stop : ∀ maxM ms i idx, maxM < idx →
    Chunked.go maxM ms i idx = { recs := [], idxs := [], derefs := [], err := none } := by
  intro maxM ms i idx h
  cases ms with
  | nil => rfl
  | cons m rest => simp [Chunked.go, h]

theorem chunkedGo_facts : ∀ maxM ms i idx,
    (Chunked.go maxM ms i idx).idxs
      = List.range' idx (Chunked.go maxM ms i idx).idxs.length ∧
    (Chunked.go maxM ms i idx).idxs.length ≤ (Chunked.go maxM ms i idx).recs.length ∧
    ((Chunked.go maxM ms i idx).recs = [] ↔ (Chunked.go maxM ms i idx).idxs = []) ∧
    (∀ j ∈ (Chunked.go maxM ms i idx).idxs, j ≤ maxM) := by
  intro maxM ms
  induction ms with
  | nil => intro i idx; simp [Chunked.go]
  | cons m rest ih =>
    intro i idx
    by_cases hmax : maxM < idx
    · rw [chunkedGo_stop maxM _ i idx hmax]
      simp
    · have hidx : idx ≤ maxM := Nat.le_of_not_lt hmax
      by_cases hnm : m.name = ""
      · simpa [Chunked.go, hmax, hnm] using ih (i + 1) idx
      · by_cases hlk : m.link = ""
        · simpa [Chunked.go, hmax, hnm, hlk] using ih (i + 1) idx
        · rcases hres : m.resolver with e | o
          · simp [Chunked.go, hmax, hnm, hlk, hres]
          · cases o with
            | none => simpa [Chunked.go, hmax, hnm, hlk, hres] using ih (i + 1) idx
            | some u =>
              rcases hdl : m.download with _ | data
              · simpa [Chunked.go, hmax, hnm, hlk, hres, hdl] using ih (i + 1) idx
              · by_cases hdata : data = []
                · simpa [Chunked.go, hmax, hnm, hlk, hres, hdl, hdata] using ih (i + 1) idx
                · rcases hcr : chunkRecords m.name data with e | rs
                  · simp [Chunked.go, hmax, hnm, hlk, hres, hdl, hdata, hcr]
                  · have hrs : rs ≠ [] := chunkRecords_ok_ne_nil _ _ _ hcr
                    have hrsl : 1 ≤ rs.length := List.length_pos.mpr hrs
                    obtain ⟨ihr, ihl, ihe, ihb⟩ := ih (i + 1) (idx + 1)
                    simp only [Chunked.go, hmax, if_false, hnm, hlk, hres, hdl, hdata, hcr,
                      ite_false, List.length_cons, List.length_append]
                    refine ⟨?_, ?_, ?_, ?_⟩
                    · rw [List.range'_succ]
                      simp only [List.cons.injEq, true_and]
                      exact ihr
                    · omega
                    · constructor
                      · intro hcontr
                        exact absurd (List.append_eq_nil.mp hcontr).1 hrs
                      · intro hcontr
                        simp at hcontr
                    · intro j hj
                      simp only [List.mem_cons] at hj
                      rcases hj with hj | hj
                      · omega
                      · exact Nat.le_trans (ihb j hj) (Nat.le_refl _)

theorem chunkedGo_skip_of_download_none : ∀ maxM m rest i idx u,
    m.resolver = Except.ok (some u) → m.download = none →
    (Chunked.go maxM (m :: rest) i idx).recs = (Chunked.go maxM rest (i + 1) idx).recs ∧
    (Chunked.go maxM (m :: rest) i idx).idxs = (Chunked.go maxM rest (i + 1) idx).idxs ∧
    (Chunked.go maxM (m :: rest) i idx).err = (Chunked.go maxM rest (i + 1) idx).err := by
  intro maxM m rest i idx u hres hdl
  by_cases hmax : maxM < idx
  · rw [chunkedGo_stop maxM _ i idx hmax, chunkedGo_stop maxM _ (i + 1) idx hmax]
    exact ⟨rfl, rfl, rfl⟩
  · by_cases hnm : m.name = ""
    · simp [Chunked.go, hmax, hnm]
    · by_cases hlk : m.link = ""
      · simp [Chunked.go, hmax, hnm, hlk]
      · simp [Chunked.go, hmax, hnm, hlk, hres, hdl]

theorem chunkedGo_derefs : ∀ maxM ms i idx,
    ∀ d ∈ (Chunked.go maxM ms i idx).derefs, i ≤ d ∧ d < i + ms.length := by
  intro maxM ms
  induction ms with
  | nil => intro i idx d hd; simp [Chunked.go] at hd
  | cons m rest ih =>
    intro i idx d hd
    by_cases hmax : maxM < idx
    · rw [chunkedGo_stop maxM _ i idx hmax] at hd
      simp at hd
    · have step : ∀ q, d ∈ (i :: q) → (∀ x ∈ q, i + 1 ≤ x ∧ x < i + 1 + rest.length) →
          i ≤ d ∧ d < i + (m :: rest).length := by
        intro q hq hsub
        simp only [List.mem_cons] at hq
        rcases hq with hq | hq
        · subst hq
          simp only [List.length_cons]
          omega
        · have := hsub d hq
          simp only [List.length_cons]
          omega
      by_cases hnm : m.name = ""
      · simp only [Chunked.go, hmax, if_false, hnm, ite_true] at hd
        exact step _ hd (fun x hx => ih (i + 1) idx x hx)
      · by_cases hlk : m.link = ""
        · simp only [Chunked.go, hmax, if_false, hnm, hlk, ite_false, ite_true] at hd
          exact step _ hd (fun x hx => ih (i + 1) idx x hx)
        · rcases hres : m.resolver with e | o
          · simp only [Chunked.go, hmax, if_false, hnm, hlk, hres, ite_false] at hd
            have hd2 : d ∈ (i :: ([] : List Nat)) := by simpa using hd
            exact step [] hd2 (fun x hx => by simp at hx)
          · cases o with
            | none =>
              simp only [Chunked.go, hmax, if_false, hnm, hlk, hres, ite_false] at hd
              exact step _ hd (fun x hx => ih (i + 1) idx x hx)
            | some u =>
              rcases hdl : m.download with _ | data
              · simp only [Chunked.go, hmax, if_false, hnm, hlk, hres, hdl, ite_false] at hd
                exact step _ hd (fun x hx => ih (i + 1) idx x hx)
              · by_cases hdata : data = []
                · simp only [Chunked.go, hmax, if_false, hnm, hlk, hres, hdl, hdata,
                    ite_false, ite_true] at hd
                  exact step _ hd (fun x hx => ih (i + 1) idx x hx)
                · rcases hcr : chunkRecords m.name data with e | rs
                  · simp only [Chunked.go, hmax, if_false, hnm, hlk, hres, hdl, hdata,
                      ite_false, hcr] at hd
                    have hd2 : d ∈ (i :: ([] : List Nat)) := by simpa using hd
                    exact step [] hd2 (fun x hx => by simp at hx)
                  · simp only [Chunked.go, hmax, if_false, hnm, hlk, hres, hdl, hdata,
                      ite_false, hcr] at hd
                    exact step _ hd (fun x hx => ih (i + 1) (idx + 1) x hx)

theorem perGoSlots_stop : ∀ maxM slots i idx, maxM < idx →
    PerListing.goSlots maxM slots i idx = { recs := [], derefs := [], err := none } := by
  intro maxM slots i idx h
  cases slots with
  | nil => rfl
  | cons a rest => simp [PerListing.goSlots, h]

theorem perGoSlots_ids : ∀ maxM slots i idx,
    (PerListing.goSlots maxM slots i idx).recs.map PerListing.MovieRecord.id
      = List.range' idx (PerListing.goSlots maxM slots i idx).recs.length := by
  intro maxM slots
  induction slots with
  | nil => intro i idx; simp [PerListing.goSlots]
  | cons slot rest ih =>
    intro i idx
    by_cases hmax : maxM < idx
    · rw [perGoSlots_stop maxM _ i idx hmax]
      simp
    · cases slot with
      | none => simpa [PerListing.goSlots, hmax] using ih (i + 1) idx
      | some m =>
        by_cases hlk : m.link = ""
        · simpa [PerListing.goSlots, hmax, hlk] using ih (i + 1) idx
        · rcases hres : m.resolver with e | o
          · simp [PerListing.goSlots, hmax, hlk, hres]
          · cases o with
            | none => simpa [PerListing.goSlots, hmax, hlk, hres] using ih (i + 1) idx
            | some u =>
              rcases hdl : m.download with _ | data
              · simp [PerListing.goSlots, hmax, hlk, hres, hdl]
              · have := ih (i + 1) (idx + 1)
                simp only [PerListing.goSlots, hmax, if_false, hlk, hres, hdl,
                  ite_false, List.map_cons, List.length_cons]
                rw [List.range'_succ]
                simp only [List.cons.injEq, true_and]
                exact this

theorem perGoSlots_derefs : ∀ maxM slots i idx,
    ∀ d ∈ (PerListing.goSlots maxM slots i idx).derefs, i ≤ d ∧ d < i + slots.length := by
  intro maxM slots
  induction slots with
  | nil => intro i idx d hd; simp [PerListing.goSlots] at hd
  | cons slot rest ih =>
    intro i idx d hd
    by_cases hmax : maxM < idx
    · rw [perGoSlots_stop maxM _ i idx hmax] at hd
      simp at hd
    · have step : ∀ q, d ∈ (i :: q) → (∀ x ∈ q, i + 1 ≤ x ∧ x < i + 1 + rest.length) →
          i ≤ d ∧ d < i + (slot :: rest).length := by
        intro q hq hsub
        simp only [List.mem_cons] at hq
        rcases hq with hq | hq
        · subst hq
          simp only [List.length_cons]
          omega
        · have := hsub d hq
          simp only [List.length_cons]
          omega
      cases slot with
      | none =>
        simp only [PerListing.goSlots, hmax, if_false] at hd
        exact step _ hd (fun x hx => ih (i + 1) idx x hx)
      | some m =>
        by_cases hlk : m.link = ""
        · simp only [PerListing.goSlots, hmax, if_false, hlk, ite_true] at hd
          exact step _ hd (fun x hx => ih (i + 1) idx x hx)
        · rcases hres : m.resolver with e | o
          · simp only [PerListing.goSlots, hmax, if_false, hlk, hres, ite_false] at hd
            have hd2 : d ∈ (i :: ([] : List Nat)) := by simpa using hd
            exact step [] hd2 (fun x hx => by simp at hx)
          · cases o with
            | none =>
              simp only [PerListing.goSlots, hmax, if_false, hlk, hres, ite_false] at hd
              exact step _ hd (fun x hx => ih (i + 1) idx x hx)
            | some u =>
              rcases hdl : m.download with _ | data
              · simp only [PerListing.goSlots, hmax, if_false, hlk, hres, hdl, ite_false] at hd
                have hd2 : d ∈ (i :: ([] : List Nat)) := by simpa using hd
                exact step [] hd2 (fun x hx => by simp at hx)
              · simp only [PerListing.goSlots, hmax, if_false, hlk, hres, hdl, ite_false] at hd
                exact step _ hd (fun x hx => ih (i + 1) (idx + 1) x hx)

theorem chunkedGetMoviesList_ok_some : ∀ maxM pg s recs idxs,
    Chunked.getMoviesList maxM pg s = Except.ok (some (recs, idxs)) →
    recs = (Chunked.go maxM pg 0 s).recs ∧ idxs = (Chunked.go maxM pg 0 s).idxs := by
  intro maxM pg s recs idxs h
  simp only [Chunked.getMoviesList] at h
  split at h
  · exact absurd h (by simp)
  · split at h
    · exact absurd h (by simp)
    · simp only [Except.ok.injEq, Option.some.injEq, Prod.mk.injEq] at h
      exact ⟨h.1.symm, h.2.symm⟩

theorem perGetMoviesList_ok_some : ∀ maxM pg s recs,
    PerListing.getMoviesList maxM pg s = Except.ok (some recs) →
    recs = (PerListing.go maxM pg s).recs := by
  intro maxM pg s recs h
  simp only [PerListing.getMoviesList] at h
  split at h
  · exact absurd h (by simp)
  · split at h
    · exact absurd h (by simp)
    · simp only [Except.ok.injEq, Option.some.injEq] at h
      exact h.symm

theorem perScrape_ids : ∀ maxM pages s c r,
    PerListing.scrapeGo maxM pages s c = Except.ok r →
    r.map PerListing.MovieRecord.id = List.range' s r.length := by
  intro maxM pages
  induction pages with
  | nil =>
    intro s c r h
    simp only [PerListing.scrapeGo, Except.ok.injEq] at h
    subst h
    simp
  | cons pg rest ih =>
    intro s c r h
    by_cases hc : maxM < c
    · simp only [PerListing.scrapeGo, hc, if_true, Except.ok.injEq] at h
      subst h
      simp
    · rcases hgml : PerListing.getMoviesList maxM pg s with e | o
      · simp only [PerListing.scrapeGo, hc, if_false, hgml] at h
        exact Except.noConfusion h
      · cases o with
        | none =>
          simp only [PerListing.scrapeGo, hc, if_false, hgml] at h
          exact Except.noConfusion h
        | some recs =>
          by_cases hlen : recs.length = 0
          · simp only [PerListing.scrapeGo, hc, if_false, hgml, hlen, if_true,
              Except.ok.injEq] at h
            subst h
            simp
          · rcases hrest : PerListing.scrapeGo maxM rest (s + recs.length) (c + recs.length)
              with e | r2
            · simp only [PerListing.scrapeGo, hc, if_false, hgml, hlen, hrest] at h
              exact Except.noConfusion h
            · simp only [PerListing.scrapeGo, hc, if_false, hgml, hlen, hrest,
                Except.ok.injEq] at h
              subst h
              have hpage := perGetMoviesList_ok_some maxM pg s recs hgml
              have hids : recs.map PerListing.MovieRecord.id = List.range' s recs.length := by
                rw [hpage]
                exact perGoSlots_ids maxM _ 0 s
              have hids2 := ih (s + recs.length) (c + recs.length) r2 hrest
              rw [List.map_append, hids, hids2, List.length_append]
              rw [List.range'_append_1]
              rw [Nat.add_comm r2.length recs.length]

theorem chunkedScrape_facts : ∀ pages s c r ids, s = c + 1 →
    Chunked.scrapeGo 2 pages s c = Except.ok (r, ids) →
    ids = List.range' s ids.length ∧ (∀ j ∈ ids, j ≤ 2) ∧ ids.length ≤ r.length := by
  intro pages
  induction pages with
  | nil =>
    intro s c r ids hsc h
    simp only [Chunked.scrapeGo, Except.ok.injEq, Prod.mk.injEq] at h
    obtain ⟨h1, h2⟩ := h
    subst h1; subst h2
    simp
  | cons pg rest ih =>
    intro s c r ids hsc h
    by_cases hc : 2 < c
    · simp only [Chunked.scrapeGo, hc, if_true, Except.ok.injEq, Prod.mk.injEq] at h
      obtain ⟨h1, h2⟩ := h
      subst h1; subst h2
      simp
    · rcases hgml : Chunked.getMoviesList 2 pg s with e | o
      · simp only [Chunked.scrapeGo, hc, if_false, hgml] at h
        exact Except.noConfusion h
      · cases o with
        | none =>
          simp only [Chunked.scrapeGo, hc, if_false, hgml] at h
          exact Except.noConfusion h
        | some pr =>
          rcases pr with ⟨recs, idxs⟩
          by_cases hlen : recs.length = 0
          · simp only [Chunked.scrapeGo, hc, if_false, hgml, hlen, if_true,
              Except.ok.injEq, Prod.mk.injEq] at h
            obtain ⟨h1, h2⟩ := h
            subst h1; subst h2
            simp
          · rcases hrest : Chunked.scrapeGo 2 rest (s + recs.length) (c + recs.length)
              with e | pr2
            · simp only [Chunked.scrapeGo, hc, if_false, hgml, hlen, hrest] at h
              exact Except.noConfusion h
            · rcases pr2 with ⟨r2, ids2⟩
              simp only [Chunked.scrapeGo, hc, if_false, hgml, hlen, hrest,
                Except.ok.injEq, Prod.mk.injEq] at h
              obtain ⟨h1, h2⟩ := h
              subst h1; subst h2
              obtain ⟨hpr, hpi⟩ := chunkedGetMoviesList_ok_some 2 pg s recs idxs hgml
              obtain ⟨hgr, hgl, hge, hgb⟩ := chunkedGo_facts 2 pg 0 s
              have hidxs : idxs = List.range' s idxs.length := by rw [hpi]; exact hgr
              have hkle : idxs.length ≤ recs.length := by rw [hpi, hpr]; exact hgl
              have hbnd : ∀ j ∈ idxs, j ≤ 2 := by
                intro j hj
                rw [hpi] at hj
                exact hgb j hj
              have hrecsne : recs ≠ [] := by
                intro hcontr
                exact hlen (by simp [hcontr])
              have hidxsne : idxs ≠ [] := by
                intro hcontr
                apply hrecsne
                rw [hpr]
                apply hge.mpr
                rw [hpi] at hcontr
                exact hcontr
              have hs1 : 1 ≤ s := by omega
              obtain ⟨hr2, hb2, hl2⟩ :=
                ih (s + recs.length) (c + recs.length) r2 ids2 (by omega) hrest
              by_cases hn2 : ids2 = []
              · subst hn2
                refine ⟨?_, ?_, ?_⟩
                · simpa using hidxs
                · intro j hj
                  simp only [List.append_nil] at hj
                  exact hbnd j hj
                · simp only [List.append_nil, List.length_append]
                  omega
              · have hmem : s + recs.length ∈ ids2 := by
                  rw [hr2]
                  rw [List.mem_range'_1]
                  constructor
                  · exact Nat.le_refl _
                  · have : 0 < ids2.length := List.length_pos.mpr hn2
                    omega
                have hsr : s + recs.length ≤ 2 := hb2 _ hmem
                have hrl1 : recs.length = 1 := by
                  have : 0 < recs.length := List.length_pos.mpr hrecsne
                  omega
                have hil1 : idxs.length = 1 := by
                  have : 0 < idxs.length := List.length_pos.mpr hidxsne
                  omega
                refine ⟨?_, ?_, ?_⟩
                · have hlen12 : (idxs ++ ids2).length = ids2.length + 1 := by
                    rw [List.length_append, hil1]
                    omega
                  rw [hlen12]
                  conv_lhs => rw [hidxs, hil1, hr2, hrl1]
                  exact List.range'_append_1 s 1 ids2.length
                · intro j hj
                  rcases List.mem_append.mp hj with hj | hj
                  · exact hbnd j hj
                  · exact hb2 j hj
                · simp only [List.length_append]
                  omega

/-! ## Claim theorems -/

/-- C1, counterexample: the round-trip law fails on the code as stated.
For the raw text " " the normalized text is " " (one chunk), but the
emitted record text is the trimmed chunk "", so concatenating the emitted
chunks does not reproduce the normalized text. -/
theorem c1_counterexample :
    (chunkRecords "m" [' ']).map (fun rs => (rs.map SubtitleRecord.subtitle).flatten)
      ≠ Except.ok (normalizeSubtitle [' ']) := by decide

/-- C1 (amended): for every raw text whose normalized form contains no
ECMAScript LineTerminator (the collapse step removes \n and \r, but a
surviving U+2028/U+2029 cannot be matched by the dot atom, so around such
characters the windows split or the match is null), whenever the chunk
array exists it has exactly ceil(L/102) windows of length at most 102
whose concatenation BEFORE the per-window trim reproduces the normalized
text, the records number the windows consecutively from 1, and the
emitted record texts are the windows after trimming; and for such texts
the chunk array exists whenever the normalized text is nonempty. -/
theorem c1_theorem :
    (∀ data cs nm, (∀ c ∈ normalizeSubtitle data, isJsLineTerm c = false) →
      subtitleChunks data = some cs →
      cs.length = ((normalizeSubtitle data).length + 101) / 102 ∧
      (∀ c ∈ cs, c.length ≤ 102) ∧
      cs.flatten = normalizeSubtitle data ∧
      chunkRecords nm data = Except.ok (chunkRecsFrom nm 0 cs) ∧
      (chunkRecsFrom nm 0 cs).map SubtitleRecord.part = List.range' 1 cs.length ∧
      (chunkRecsFrom nm 0 cs).map SubtitleRecord.subtitle = cs.map jsTrimChars) ∧
    (∀ data, normalizeSubtitle data ≠ [] →
      (∀ c ∈ normalizeSubtitle data, isJsLineTerm c = false) →
      (subtitleChunks data).isSome) := by
  constructor
  · intro data cs nm hterm h
    obtain ⟨hcs, hne⟩ := subtitleChunks_eq_some data cs h
    refine ⟨?_, ?_, ?_, ?_, ?_, ?_⟩
    · rw [hcs]
      exact jsDotScanF_length _ _ (Nat.le_refl _) hterm
    · intro c hc
      rw [hcs] at hc
      exact jsDotScanF_mem_length_le _ _ c hc
    · rw [hcs]
      exact jsDotScanF_join _ _ (Nat.le_refl _) hterm
    · simp only [chunkRecords, h]
    · simpa using chunkRecsFrom_map_part nm cs 0
    · exact chunkRecsFrom_map_subtitle nm cs 0
  · exact subtitleChunks_isSome

/-- C1 witness: the amended theorem applied to the 205-character example
(chunks of lengths 102, 102, 1, parts 1, 2, 3). -/
theorem c1_witness :
    (chunksA.length = ((normalizeSubtitle dataA).length + 101) / 102 ∧
     (∀ c ∈ chunksA, c.length ≤ 102) ∧
     chunksA.flatten = normalizeSubtitle dataA ∧
     chunkRecords "Movie A" dataA = Except.ok (chunkRecsFrom "Movie A" 0 chunksA) ∧
     (chunkRecsFrom "Movie A" 0 chunksA).map SubtitleRecord.part
       = List.range' 1 chunksA.length ∧
     (chunkRecsFrom "Movie A" 0 chunksA).map SubtitleRecord.subtitle
       = chunksA.map jsTrimChars) ∧
    (subtitleChunks dataA).isSome :=
  ⟨c1_theorem.1 dataA chunksA "Movie A" (by decide) (by decide),
   c1_theorem.2 dataA (by decide) (by decide)⟩

/-- C2, counterexample: a stage-local navigation failure while resolving
one listing is NOT caught at the per-listing boundary: it propagates out
of the page loop and terminates the chunked run with the error instead of
skipping the listing. -/
theorem c2_counterexample :
    Chunked.scrapeMovies [[demoListingNav]]
      = Except.error (JsError.navError "net::ERR_CONNECTION_RESET") := by decide

/-- C2 (amended): failures inside the download stage are caught at the
per-listing boundary and become null: an extraction failure (no .srt
entry) and a network failure both make startDownload return null, and the
chunked orchestrator treats a null download result as skip-and-continue
(same records, same assigned indices, same loop outcome as if the listing
were absent, and no termination).  Navigation failures in the resolver, by
contrast, are uncaught (see the counterexample). -/
theorem c2_theorem :
    (∀ (netOk : Bool) url remoteZip st,
        List.lookup (filePathOf url) st.files = none → findSrtEntry remoteZip = none →
        (startDownload netOk url remoteZip st).result = none) ∧
    (∀ url remoteZip st, List.lookup (filePathOf url) st.files = none →
        (startDownload false url remoteZip st).result = none) ∧
    (∀ maxM m rest i idx u, m.resolver = Except.ok (some u) → m.download = none →
      (Chunked.go maxM (m :: rest) i idx).recs = (Chunked.go maxM rest (i + 1) idx).recs ∧
      (Chunked.go maxM (m :: rest) i idx).idxs = (Chunked.go maxM rest (i + 1) idx).idxs ∧
      (Chunked.go maxM (m :: rest) i idx).err = (Chunked.go maxM rest (i + 1) idx).err) := by
  refine ⟨?_, ?_, ?_⟩
  · intro netOk url remoteZip st hlk hsrt
    cases netOk <;>
      simp [startDownload, hlk, extractSubtitles, hsrt, exceptToNull]
  · intro url remoteZip st hlk
    simp [startDownload, hlk]
  · intro maxM m rest i idx u hres hdl
    exact chunkedGo_skip_of_download_none maxM m rest i idx u hres hdl

/-- C2 witness: the amended theorem at concrete inputs (a cache-miss
download of an archive with no subtitle entry, a failed network transfer,
and a page whose first listing had a failed download). -/
theorem c2_witness :
    (startDownload true demoUrl demoEntriesNoSrt { files := [] }).result = none ∧
    (startDownload false demoUrl demoEntries { files := [] }).result = none ∧
    ((Chunked.go 2 (demoListingDlFail :: [demoListingOk]) 0 1).recs
        = (Chunked.go 2 [demoListingOk] 1 1).recs ∧
      (Chunked.go 2 (demoListingDlFail :: [demoListingOk]) 0 1).idxs
        = (Chunked.go 2 [demoListingOk] 1 1).idxs ∧
      (Chunked.go 2 (demoListingDlFail :: [demoListingOk]) 0 1).err
        = (Chunked.go 2 [demoListingOk] 1 1).err) :=
  ⟨c2_theorem.1 true demoUrl demoEntriesNoSrt { files := [] } (by decide) (by decide),
   c2_theorem.2.1 demoUrl demoEntries { files := [] } (by decide),
   c2_theorem.2.2 2 demoListingDlFail [demoListingOk] 0 1
     "https://yts-subs.com/subtitle/d-yify-2" (by decide) (by decide)⟩

/-- C3, counterexample: the index.js listing loop (condition
i <= movieList.length) dereferences one position past the last discovered
listing element: on a one-element page it reads positions 0 and 1. -/
theorem c3_counterexample :
    (PerListing.go 10 [demoListingMiss] 1).derefs = [0, 1] ∧
    ([demoListingMiss] : List Listing).length = 1 := by decide

/-- C3 (amended): in both variants, once the global item index exceeds
MAX_MOVIES the page loop processes nothing further (it returns the empty
outcome at once) and every index assigned to a record stays at most
MAX_MOVIES; the chunked variant dereferences only positions below the
element count, while index.js also dereferences position length (an
undefined element its guard then skips; see the counterexample). -/
theorem c3_theorem :
    (∀ ms i idx, Chunked.MAX_MOVIES < idx →
        Chunked.go Chunked.MAX_MOVIES ms i idx
          = { recs := [], idxs := [], derefs := [], err := none }) ∧
    (∀ ms idx, ∀ j ∈ (Chunked.go Chunked.MAX_MOVIES ms 0 idx).idxs,
        j ≤ Chunked.MAX_MOVIES) ∧
    (∀ ms idx, ∀ d ∈ (Chunked.go Chunked.MAX_MOVIES ms 0 idx).derefs, d < ms.length) ∧
    (∀ ms idx, PerListing.MAX_MOVIES < idx →
        PerListing.go PerListing.MAX_MOVIES ms idx
          = { recs := [], derefs := [], err := none }) := by
  refine ⟨?_, ?_, ?_, ?_⟩
  · intro ms i idx h
    exact chunkedGo_stop _ ms i idx h
  · intro ms idx j hj
    exact (chunkedGo_facts Chunked.MAX_MOVIES ms 0 idx).2.2.2 j hj
  · intro ms idx d hd
    have := chunkedGo_derefs Chunked.MAX_MOVIES ms 0 idx d hd
    omega
  · intro ms idx h
    exact perGoSlots_stop _ _ 0 idx h

/-- C3 witness: the amended theorem at concrete inputs (a quota already
exceeded before a page, a processed one-listing page, its dereference
list, and the index.js quota stop). -/
theorem c3_witness :
    (Chunked.go Chunked.MAX_MOVIES [demoListingOk] 5 3
        = { recs := [], idxs := [], derefs := [], err := none }) ∧
    (1 ≤ Chunked.MAX_MOVIES) ∧
    (0 < ([demoListingOk] : List Listing).length) ∧
    (PerListing.go PerListing.MAX_MOVIES [demoListingOk] 11
        = { recs := [], derefs := [], err := none }) :=
  ⟨c3_theorem.1 [demoListingOk] 5 3 (by decide),
   c3_theorem.2.1 [demoListingOk] 1 1 (by decide),
   c3_theorem.2.2.1 [demoListingOk] 1 0 (by decide),
   c3_theorem.2.2.2 [demoListingOk] 11 (by decide)⟩

/-- C4: the global item index attached to successful listings is 1, 2, 3,
... with no gaps across the whole run: in index.js the record ids of every
successful run are exactly the range from 1, and in the chunked variant
the movieIndex values assigned to successful listings are exactly the
range from 1 (the cross-page advance startIndex += moviesList.length
counts chunk records, but with MAX_MOVIES = 2 a surplus always exhausts
the quota before another listing is processed, so no gap is ever
assigned). -/
theorem c4_theorem :
    (∀ pages r, PerListing.scrapeMovies pages = Except.ok r →
        r.map PerListing.MovieRecord.id = List.range' 1 r.length) ∧
    (∀ pages r ids, Chunked.scrapeMovies pages = Except.ok (r, ids) →
        ids = List.range' 1 ids.length) := by
  constructor
  · intro pages r h
    exact perScrape_ids PerListing.MAX_MOVIES pages 1 0 r h
  · intro pages r ids h
    have h2 : Chunked.scrapeGo 2 pages 1 0 = Except.ok (r, ids) := h
    exact (chunkedScrape_facts pages 1 0 r ids rfl h2).1

/-- C4 witness: a two-page run with a skipped listing in between yields
ids 1, 2 in index.js and assigned indices 1, 2 in the chunked variant. -/
theorem c4_witness :
    demoRecsIdx.map PerListing.MovieRecord.id = List.range' 1 demoRecsIdx.length ∧
    ([1, 2] : List Nat) = List.range' 1 ([1, 2] : List Nat).length :=
  ⟨c4_theorem.1 demoPages demoRecsIdx (by decide),
   c4_theorem.2 demoPages demoRecsChunked [1, 2] (by decide)⟩

/-- C5, counterexample: when the subtitle table is absent the resolver
does not return the null "not found" value: querying the rows of the null
table handle raises a TypeError that no caller catches. -/
theorem c5_counterexample :
    getEnglishSubtitleLink none
      = Except.error (JsError.typeError "Cannot read properties of null (reading the tr query)") := by
  decide

/-- C5 (amended): on a PRESENT table the resolver returns the archive URL
of the first row (in document order) whose trimmed language label equals
"English" exactly, and null when the table is empty or no row matches;
an ABSENT table instead raises a TypeError (see the counterexample). -/
theorem c5_theorem : ∀ rows,
    getEnglishSubtitleLink (some rows)
      = Except.ok ((rows.find? (fun r => jsTrimStr r.lang == "English")).map SubRow.href) := by
  intro rows
  simp only [getEnglishSubtitleLink, Except.ok.injEq]
  induction rows with
  | nil => simp [findEnglishRow, List.find?]
  | cons r rs ih =>
    by_cases hr : jsTrimStr r.lang = "English"
    · have hb : (jsTrimStr r.lang == "English") = true := by simp [hr]
      simp [findEnglishRow, List.find?, hr, hb]
    · have hb : (jsTrimStr r.lang == "English") = false := by simp [hr]
      simp [findEnglishRow, List.find?, hr, hb, ih]

/-- C6: on a cache hit (a file already at subtitles/<f>/<f>.zip) the
download step performs zero transfers, leaves the filesystem unchanged
and extracts the stored artifact; on a miss the first run performs the one
transfer and a second run against the same URL performs zero transfers and
extracts exactly the artifact the first run wrote, even if the remote
content changed - at most one transfer per distinct archive filename. -/
theorem c6_theorem :
    (∀ url remoteZip st storedZip,
        List.lookup (filePathOf url) st.files = some storedZip →
        startDownload true url remoteZip st
          = { result := exceptToNull (extractSubtitles storedZip), st := st, transfers := 0 }) ∧
    (∀ url remote1 remote2 st, List.lookup (filePathOf url) st.files = none →
        (startDownload true url remote1 st).transfers = 1 ∧
        (startDownload true url remote2 (startDownload true url remote1 st).st).transfers = 0 ∧
        (startDownload true url remote2 (startDownload true url remote1 st).st).st
          = (startDownload true url remote1 st).st ∧
        (startDownload true url remote2 (startDownload true url remote1 st).st).result
          = exceptToNull (extractSubtitles remote1)) := by
  constructor
  · intro url remoteZip st storedZip hlk
    simp [startDownload, hlk]
  · intro url remote1 remote2 st hlk
    have hrun1 : startDownload true url remote1 st
        = { result := exceptToNull (extractSubtitles remote1),
            st := { files := (filePathOf url, remote1) :: st.files }, transfers := 1 } := by
      simp [startDownload, hlk]
    have hlk2 : List.lookup (filePathOf url)
        ((filePathOf url, remote1) :: st.files) = some remote1 := by
      simp [List.lookup]
    refine ⟨by rw [hrun1], ?_, ?_, ?_⟩ <;>
      rw [hrun1] <;> simp [startDownload, hlk2]

/-- C6 witness: a hit on a stored archive transfers nothing and reads the
stored entries; a miss for a concrete URL downloads once, and the repeat
run transfers nothing and reads the first run's artifact despite a changed
remote archive. -/
theorem c6_witness :
    (startDownload true demoUrl demoEntries2 { files := [(filePathOf demoUrl, demoEntries)] }
        = { result := exceptToNull (extractSubtitles demoEntries),
            st := { files := [(filePathOf demoUrl, demoEntries)] }, transfers := 0 }) ∧
    ((startDownload true demoUrl demoEntries { files := [] }).transfers = 1 ∧
     (startDownload true demoUrl demoEntries2
        (startDownload true demoUrl demoEntries { files := [] }).st).transfers = 0 ∧
     (startDownload true demoUrl demoEntries2
        (startDownload true demoUrl demoEntries { files := [] }).st).st
        = (startDownload true demoUrl demoEntries { files := [] }).st ∧
     (startDownload true demoUrl demoEntries2
        (startDownload true demoUrl demoEntries { files := [] }).st).result
        = exceptToNull (extractSubtitles demoEntries)) :=
  ⟨c6_theorem.1 demoUrl demoEntries2 { files := [(filePathOf demoUrl, demoEntries)] }
      demoEntries (by decide),
   c6_theorem.2 demoUrl demoEntries demoEntries2 { files := [] } (by decide)⟩

/-- C7, counterexample: in the part_001 variant an archive with no .srt
entry does not fail with the "archive has no subtitle document" error at
all: subtitleEntry stays null and path.basename(null) raises a TypeError
(and part_001 has no try/catch, so the run crashes instead of skipping). -/
theorem c7_counterexample :
    srtEntryBasenameV1 demoEntriesNoSrt
        = Except.error (JsError.typeError "The path argument must be of type string, received null") ∧
    srtEntryBasenameV1 demoEntriesNoSrt
        ≠ Except.error (JsError.zipError "No subtitle file found in zip") := by
  exact ⟨rfl, by decide⟩

/-- C7 (amended): in index.js / part_000 the extraction scan is exactly
first-match over the archive's internal entry order; extraction returns
the decoded text of the first .srt entry and fails with the
"No subtitle file found in zip" error when there is none; that error is
caught inside startDownload (null result), and the chunked orchestrator
skips the listing without a record and without terminating.  The part_001
variant instead raises an uncaught TypeError (see the counterexample). -/
theorem c7_theorem :
    (∀ entries, findSrtEntry entries = entries.find? (fun e => hasSrtSuffix e.entryName)) ∧
    (∀ entries e, findSrtEntry entries = some e →
        extractSubtitles entries = Except.ok e.data) ∧
    (∀ entries, findSrtEntry entries = none →
        extractSubtitles entries = Except.error (JsError.zipError "No subtitle file found in zip")) ∧
    (∀ (netOk : Bool) url remoteZip st, List.lookup (filePathOf url) st.files = none →
        findSrtEntry remoteZip = none → (startDownload netOk url remoteZip st).result = none) ∧
    (∀ maxM m rest i idx u, m.resolver = Except.ok (some u) → m.download = none →
        (Chunked.go maxM (m :: rest) i idx).recs = (Chunked.go maxM rest (i + 1) idx).recs ∧
        (Chunked.go maxM (m :: rest) i idx).err = (Chunked.go maxM rest (i + 1) idx).err) := by
  refine ⟨?_, ?_, ?_, ?_, ?_⟩
  · intro entries
    induction entries with
    | nil => simp [findSrtEntry, List.find?]
    | cons e es ih =>
      by_cases he : hasSrtSuffix e.entryName
      · simp [findSrtEntry, List.find?, he]
      · simp [findSrtEntry, List.find?, he, ih]
  · intro entries e h
    simp [extractSubtitles, h]
  · intro entries h
    simp [extractSubtitles, h]
  · intro netOk url remoteZip st hlk hsrt
    cases netOk <;>
      simp [startDownload, hlk, extractSubtitles, hsrt, exceptToNull]
  · intro maxM m rest i idx u hres hdl
    have h := chunkedGo_skip_of_download_none maxM m rest i idx u hres hdl
    exact ⟨h.1, h.2.2⟩

/-- C7 witness: the amended theorem at the spec example archive (the
first .srt entry between two other entries is returned), at an archive
with no .srt entry, at a cache-miss download of that archive, and at a
page whose listing had a null download result. -/
theorem c7_witness :
    (findSrtEntry demoEntries
        = demoEntries.find? (fun e => hasSrtSuffix e.entryName)) ∧
    (extractSubtitles demoEntries
        = Except.ok "subtitle text".data) ∧
    (extractSubtitles demoEntriesNoSrt
        = Except.error (JsError.zipError "No subtitle file found in zip")) ∧
    ((startDownload true demoUrl demoEntriesNoSrt { files := [] }).result = none) ∧
    ((Chunked.go 2 [demoListingDlFail] 0 1).recs = (Chunked.go 2 [] 1 1).recs ∧
     (Chunked.go 2 [demoListingDlFail] 0 1).err = (Chunked.go 2 [] 1 1).err) :=
  ⟨c7_theorem.1 demoEntries,
   c7_theorem.2.1 demoEntries { entryName := "movie.srt", data := "subtitle text".data }
     (by decide),
   c7_theorem.2.2.1 demoEntriesNoSrt (by decide),
   c7_theorem.2.2.2.1 true demoUrl demoEntriesNoSrt { files := [] } (by decide) (by decide),
   c7_theorem.2.2.2.2 2 demoListingDlFail [] 0 1
     "https://yts-subs.com/subtitle/d-yify-2" (by decide) (by decide)⟩

/-- C8: the claim describes the intended catalog-exhaustion shutdown, but
the code is broken there: a page with zero listing elements makes
getMoviesList return null, scrapeMovies then evaluates null.length, and
the resulting TypeError aborts the run BEFORE the CSV write, so the
records already collected are lost (both variants; the code comment "break
out of the loop" states the intent the code misses). -/
theorem c8_theorem :
    Chunked.scrapeMovies [[demoListingOk], []]
      = Except.error (JsError.typeError "Cannot read properties of null (reading length)") ∧
    PerListing.scrapeMovies [[demoListingOk], []]
      = Except.error (JsError.typeError "Cannot read properties of null (reading length)") := by
  exact ⟨by decide, by decide⟩

/-- C9: the claim requires completion of a transfer to be detected by
observing the filesystem, but downloadSubtitles synchronizes with a fixed
wall-clock delay: its step sequence contains the fixed 10000 ms wait
(newPage.waitForTimeout(10000)) and no filesystem-observation step at
all, for every URL and target directory. -/
theorem c9_theorem : ∀ url dir,
    DlAction.waitFixedMs 10000 ∈ downloadSubtitlesTrace url dir ∧
    (downloadSubtitlesTrace url dir).all (fun a => !(isFsObservation a)) = true := by
  intro url dir
  constructor
  · simp [downloadSubtitlesTrace]
  · simp [downloadSubtitlesTrace, isFsObservation]

/-- C10: the chunk-splitting step of the chunked variant is partial: for
every subtitle document that normalizes to the empty string the .match
call yields null, the .map over it raises a TypeError, the page loop
aborts with that error, and a whole run containing such a listing
terminates with the TypeError instead of producing an empty chunk
sequence or a per-listing skip. -/
theorem c10_theorem :
    (∀ data, normalizeSubtitle data = [] → subtitleChunks data = none) ∧
    (∀ nm data, normalizeSubtitle data = [] →
        chunkRecords nm data
          = Except.error (JsError.typeError "Cannot read properties of null (reading map)")) ∧
    (∀ m rest i idx u data, ¬ Chunked.MAX_MOVIES < idx → m.name ≠ "" → m.link ≠ "" →
        m.resolver = Except.ok (some u) → m.download = some data → data ≠ [] →
        normalizeSubtitle data = [] →
        (Chunked.go Chunked.MAX_MOVIES (m :: rest) i idx).err
          = some (JsError.typeError "Cannot read properties of null (reading map)")) ∧
    Chunked.scrapeMovies [[demoListingEmptyNorm]]
      = Except.error (JsError.typeError "Cannot read properties of null (reading map)") := by
  refine ⟨?_, ?_, ?_, ?_⟩
  · exact subtitleChunks_none_of_empty
  · intro nm data h
    simp [chunkRecords, subtitleChunks_none_of_empty data h]
  · intro m rest i idx u data hmax hnm hlk hres hdl hdata hnorm
    have hcr : chunkRecords m.name data
        = Except.error (JsError.typeError "Cannot read properties of null (reading map)") := by
      simp [chunkRecords, subtitleChunks_none_of_empty data hnorm]
    simp [Chunked.go, hmax, hnm, hlk, hres, hdl, hdata, hcr]
  · decide

/-- C10 witness: the theorem at the concrete document "<i>" (nonempty, but
empty after normalization) and at a run containing it. -/
theorem c10_witness :
    subtitleChunks "<i>".data = none ∧
    chunkRecords "Movie E" "<i>".data
      = Except.error (JsError.typeError "Cannot read properties of null (reading map)") ∧
    (Chunked.go Chunked.MAX_MOVIES [demoListingEmptyNorm] 0 1).err
      = some (JsError.typeError "Cannot read properties of null (reading map)") ∧
    Chunked.scrapeMovies [[demoListingEmptyNorm]]
      = Except.error (JsError.typeError "Cannot read properties of null (reading map)") :=
  ⟨c10_theorem.1 "<i>".data (by decide),
   c10_theorem.2.1 "Movie E" "<i>".data (by decide),
   c10_theorem.2.2.1 demoListingEmptyNorm [] 0 1 "https://yts-subs.com/subtitle/e-yify-3"
     "<i>".data (by decide) (by decide) (by decide) (by decide) (by decide) (by decide)
     (by decide),
   c10_theorem.2.2.2⟩

/-- C5 witness: the amended theorem at the spec example table (a French
row before an English row resolves to the English URL) and at a table
with no English row (null). -/
theorem c5_witness :
    getEnglishSubtitleLink (some [{ lang := "French", href := "a" }, { lang := "English", href := "b" }])
      = Except.ok (some "b") ∧
    getEnglishSubtitleLink (some [{ lang := "French", href := "a" }]) = Except.ok none :=
  ⟨(c5_theorem [{ lang := "French", href := "a" }, { lang := "English", href := "b" }]).trans
      (by decide),
   (c5_theorem [{ lang := "French", href := "a" }]).trans (by decide)⟩

/-- C9 witness: the synchronization trace of a concrete download contains
the fixed 10-second wait and no filesystem observation. -/
theorem c9_witness :
    DlAction.waitFixedMs 10000 ∈ downloadSubtitlesTrace demoUrl (movieFolderOf demoUrl) ∧
    (downloadSubtitlesTrace demoUrl (movieFolderOf demoUrl)).all
      (fun a => !(isFsObservation a)) = true :=
  c9_theorem demoUrl (movieFolderOf demoUrl)
